import Mathlib

/-!
Verification of the OTP-based passwordless authentication core of the
perfume-recommendation backend.

The development shallowly embeds:
 - the pure auth utilities of src/backend/src/utils/auth.ts
   (normalizeEmail, normalizePhone, hashString, hashEmail, hashPhone,
   generateOTP, getOTPExpiry, isOTPValid), including an executable
   SHA-256 over Nat standing for Node's crypto.createHash('sha256');
 - the relational state of the SQL schema (users and login_codes
   tables) as a pure Store of lists;
 - the three Express handlers of the auth router (POST /signup,
   POST /login, POST /verify) as pure state-passing functions, with
   the random OTP draw, the fresh row ids and the current time taken
   as explicit parameters;
 - the storage-layer unique index users_emailHash_key as an atomic
   conditional insert;
 - the interleaving of two concurrent verify requests at the await
   boundary between the findFirst query and the update write.
-/

namespace PerfumeAuth

/-! ## SHA-256 over Nat (model of crypto.createHash('sha256')) -/

/-- Truncate a Nat to a 32-bit word. -/
def w32 (n : Nat) : Nat := n % 4294967296

/-- 32-bit right rotation. -/
def rotr (n x : Nat) : Nat := w32 ((x >>> n) ||| (x <<< (32 - n)))

/-- The 64 SHA-256 round constants. -/
def K256 : List Nat := [
  1116352408, 1899447441, 3049323471, 3921009573,
  961987163, 1508970993, 2453635748, 2870763221,
  3624381080, 310598401, 607225278, 1426881987,
  1925078388, 2162078206, 2614888103, 3248222580,
  3835390401, 4022224774, 264347078, 604807628,
  770255983, 1249150122, 1555081692, 1996064986,
  2554220882, 2821834349, 2952996808, 3210313671,
  3336571891, 3584528711, 113926993, 338241895,
  666307205, 773529912, 1294757372, 1396182291,
  1695183700, 1986661051, 2177026350, 2456956037,
  2730485921, 2820302411, 3259730800, 3345764771,
  3516065817, 3600352804, 4094571909, 275423344,
  430227734, 506948616, 659060556, 883997877,
  958139571, 1322822218, 1537002063, 1747873779,
  1955562222, 2024104815, 2227730452, 2361852424,
  2428436474, 2756734187, 3204031479, 3329325298]

/-- The SHA-256 initial hash value. -/
def H0 : List Nat := [1779033703, 3144134277, 1013904242, 2773480762,
                      1359893119, 2600822924, 528734635, 1541459225]

/-- UTF-8 encoding of one character, as Node's hash update applies to
JavaScript strings. -/
def utf8Bytes (c : Char) : List Nat :=
  let n := c.toNat
  if n < 0x80 then [n]
  else if n < 0x800 then [0xC0 ||| (n >>> 6), 0x80 ||| (n &&& 0x3F)]
  else if n < 0x10000 then
    [0xE0 ||| (n >>> 12), 0x80 ||| ((n >>> 6) &&& 0x3F), 0x80 ||| (n &&& 0x3F)]
  else
    [0xF0 ||| (n >>> 18), 0x80 ||| ((n >>> 12) &&& 0x3F),
     0x80 ||| ((n >>> 6) &&& 0x3F), 0x80 ||| (n &&& 0x3F)]

/-- UTF-8 byte sequence of a string. -/
def strBytes (s : String) : List Nat := (s.data.map utf8Bytes).flatten

/-- Big-endian byte decomposition (k bytes). -/
def beBytes : Nat → Nat → List Nat
  | 0, _ => []
  | k + 1, n => beBytes k (n >>> 8) ++ [n &&& 0xFF]

/-- SHA-256 padding: 0x80, zeros to 56 mod 64, 64-bit big-endian bit length. -/
def padded (msg : List Nat) : List Nat :=
  msg ++ [0x80] ++ List.replicate ((119 - msg.length % 64) % 64) 0 ++ beBytes 8 (8 * msg.length)

/-- Group bytes into big-endian 32-bit words. -/
def bytesToWords : List Nat → List Nat
  | b0 :: b1 :: b2 :: b3 :: rest =>
    ((((b0 <<< 8) ||| b1) <<< 8 ||| b2) <<< 8 ||| b3) :: bytesToWords rest
  | _ => []

/-- SHA-256 lowercase sigma 0. -/
def ssig0 (x : Nat) : Nat := (rotr 7 x) ^^^ (rotr 18 x) ^^^ (x >>> 3)

/-- SHA-256 lowercase sigma 1. -/
def ssig1 (x : Nat) : Nat := (rotr 17 x) ^^^ (rotr 19 x) ^^^ (x >>> 10)

/-- One message-schedule extension step. -/
def extendStep (ws : List Nat) : List Nat :=
  let i := ws.length
  ws ++ [w32 (ws.getD (i - 16) 0 + ssig0 (ws.getD (i - 15) 0) +
              ws.getD (i - 7) 0 + ssig1 (ws.getD (i - 2) 0))]

/-- Iterate the message-schedule extension. -/
def extendN : Nat → List Nat → List Nat
  | 0, ws => ws
  | n + 1, ws => extendN n (extendStep ws)

/-- One SHA-256 compression round on the eight working variables. -/
def round256 (st : List Nat) (ki wi : Nat) : List Nat :=
  match st with
  | [a, b, c, d, e, f, g, h] =>
    let S1 := (rotr 6 e) ^^^ (rotr 11 e) ^^^ (rotr 25 e)
    let ch := (e &&& f) ^^^ ((e ^^^ 0xFFFFFFFF) &&& g)
    let temp1 := w32 (h + S1 + ch + ki + wi)
    let S0 := (rotr 2 a) ^^^ (rotr 13 a) ^^^ (rotr 22 a)
    let maj := (a &&& b) ^^^ (a &&& c) ^^^ (b &&& c)
    let temp2 := w32 (S0 + maj)
    [w32 (temp1 + temp2), a, b, c, w32 (d + temp1), e, f, g]
  | other => other

/-- Compress one 64-byte block into the running hash. -/
def compress (h : List Nat) (block : List Nat) : List Nat :=
  let ws := extendN 48 (bytesToWords block)
  let st := (K256.zip ws).foldl (fun st kw => round256 st kw.1 kw.2) h
  (h.zip st).map (fun p => w32 (p.1 + p.2))

/-- Compress the given number of 64-byte blocks. -/
def compressBlocks : Nat → List Nat → List Nat → List Nat
  | 0, _, h => h
  | n + 1, bytes, h => compressBlocks n (bytes.drop 64) (compress h (bytes.take 64))

/-- Lowercase hexadecimal digit character. -/
def hexChar (d : Nat) : Char := if d < 10 then Char.ofNat (48 + d) else Char.ofNat (87 + d)

/-- Eight hex characters of one 32-bit word, most significant first. -/
def wordHex (w : Nat) : List Char :=
  [hexChar ((w >>> 28) &&& 15), hexChar ((w >>> 24) &&& 15), hexChar ((w >>> 20) &&& 15),
   hexChar ((w >>> 16) &&& 15), hexChar ((w >>> 12) &&& 15), hexChar ((w >>> 8) &&& 15),
   hexChar ((w >>> 4) &&& 15), hexChar (w &&& 15)]

/-- hashString from utils/auth.ts: SHA-256 of the input, as a 64-character
lowercase hex string. -/
def hashString (input : String) : String :=
  let msg := strBytes input
  let p := padded msg
  let hs := compressBlocks (p.length / 64) p H0
  ⟨(hs.map wordHex).flatten⟩

/-! ## Normalization utilities from utils/auth.ts -/

/-- Whitespace test used by the model of String.prototype.trim
(space, tab, line feed, carriage return). -/
def isWs (c : Char) : Bool :=
  decide (c.toNat = 32 ∨ c.toNat = 9 ∨ c.toNat = 10 ∨ c.toNat = 13)

/-- ASCII model of the per-character lowercase mapping of
String.prototype.toLowerCase. -/
def lowerChar (c : Char) : Char :=
  if 65 ≤ c.toNat ∧ c.toNat ≤ 90 then Char.ofNat (c.toNat + 32) else c

/-- Model of String.prototype.trim on the character list: drop leading and
trailing whitespace. -/
def trimChars (l : List Char) : List Char :=
  ((l.dropWhile isWs).reverse.dropWhile isWs).reverse

/-- normalizeEmail from utils/auth.ts: trim, then lowercase. -/
def normalizeEmail (email : String) : String :=
  ⟨(trimChars email.data).map lowerChar⟩

/-- normalizePhone from utils/auth.ts: keep only decimal digits
(the replace of every character matching the non-digit class). -/
def normalizePhone (phone : String) : String :=
  ⟨phone.data.filter Char.isDigit⟩

/-- hashEmail from utils/auth.ts: normalize, then hash. -/
def hashEmail (email : String) : String := hashString (normalizeEmail email)

/-- hashPhone from utils/auth.ts: normalize, then hash. -/
def hashPhone (phone : String) : String := hashString (normalizePhone phone)

/-- Decimal digit character for a value below 10. -/
def decDigitChar (d : Nat) : Char := Char.ofNat (48 + d)

/-- Fuel-based helper for the decimal digit expansion; the fuel always
exceeds the number of digits at every call site. -/
def natToDigitsAux : Nat → Nat → List Char
  | 0, _ => []
  | fuel + 1, n =>
    if n < 10 then [decDigitChar n]
    else natToDigitsAux fuel (n / 10) ++ [decDigitChar (n % 10)]

/-- Decimal digit characters of a Nat, most significant first, as
produced by Number.prototype.toString. -/
def natToDigits (n : Nat) : List Char := natToDigitsAux (n + 1) n

/-- Model of String.prototype.padStart: left-pad with the given character
up to the given length. -/
def padStart (s : String) (len : Nat) (c : Char) : String :=
  ⟨List.replicate (len - s.data.length) c ++ s.data⟩

/-- generateOTP from utils/auth.ts, with the draw of
crypto.randomInt(0, 1000000) taken as the argument: decimal string of the
draw, left-padded with zeros to 6 characters. -/
def generateOTP (n : Nat) : String := padStart ⟨natToDigits n⟩ 6 '0'

/-- getOTPExpiry from utils/auth.ts, over Nat milliseconds: the current
time plus the given number of minutes. -/
def getOTPExpiry (now : Nat) (minutes : Nat) : Nat := now + minutes * 60000

/-- isOTPValid from utils/auth.ts: the current time is strictly before
the expiry. -/
def isOTPValid (now expiresAt : Nat) : Bool := decide (now < expiresAt)

/-! ## Relational state (users and login_codes tables) -/

/-- A row of the users table. -/
structure User where
  id : String
  emailHash : String
  phoneHash : String
  createdAt : Nat
deriving DecidableEq

/-- A row of the login_codes table (consumed defaults to false on create). -/
structure LoginCode where
  id : String
  userId : String
  code : String
  expiresAt : Nat
  consumed : Bool
  createdAt : Nat
deriving DecidableEq

/-- The database state visible to the auth router. -/
structure Store where
  users : List User
  codes : List LoginCode
deriving DecidableEq

/-- The error responses of the auth router: 400, 409, 404, 401. -/
inductive AuthError where
  | BadRequest
  | Conflict
  | NotFound
  | Unauthorized
deriving DecidableEq

/-- Decidable equality of handler results, used to evaluate the model on
concrete stores. -/
instance {ε α : Type} [DecidableEq ε] [DecidableEq α] : DecidableEq (Except ε α)
  | .ok a, .ok b =>
    if h : a = b then isTrue (by rw [h]) else isFalse (by intro he; cases he; exact h rfl)
  | .ok _, .error _ => isFalse (by intro h; cases h)
  | .error _, .ok _ => isFalse (by intro h; cases h)
  | .error e, .error f =>
    if h : e = f then isTrue (by rw [h]) else isFalse (by intro he; cases he; exact h rfl)

/-- JavaScript truthiness of an optional request-body string: absent and
empty strings are falsy. -/
def present (o : Option String) : Bool :=
  match o with
  | none => false
  | some s => !(s == "")

/-- The where-clause of the verify handler's findFirst query:
userId, code and consumed: false. -/
def codeMatches (uid c : String) (lc : LoginCode) : Bool :=
  lc.userId == uid && lc.code == c && lc.consumed == false

/-- Row with the greatest createdAt, the orderBy createdAt desc of the
findFirst query. -/
def pickLatest : List LoginCode → Option LoginCode
  | [] => none
  | x :: xs =>
    match pickLatest xs with
    | none => some x
    | some y => if y.createdAt > x.createdAt then some y else some x

/-- The findFirst query of the verify handler: most recently created
unconsumed row matching (userId, code). -/
def findLoginCode (s : Store) (uid c : String) : Option LoginCode :=
  pickLatest (s.codes.filter (codeMatches uid c))

/-- The update of the verify handler: set consumed to true on the row
with the given id. -/
def markConsumed (s : Store) (id : String) : Store :=
  { s with codes := s.codes.map (fun lc => if lc.id == id then { lc with consumed := true } else lc) }

/-- The findUnique query on emailHash used by signup and login. -/
def findUserByEmailHash (s : Store) (h : String) : Option User :=
  s.users.find? (fun u => u.emailHash == h)

/-- The POST /signup handler. The fresh user id, fresh code row id, OTP
draw and current time are explicit parameters; the result carries the
response (userId and otpCode on success) and the updated store. -/
def signup (s : Store) (now : Nat) (newUserId newCodeId otp : String)
    (email phone : Option String) : Except AuthError (String × String) × Store :=
  if !(present email) || !(present phone) then (.error .BadRequest, s)
  else
    let emailHash := hashEmail (email.getD "")
    let phoneHash := hashPhone (phone.getD "")
    match findUserByEmailHash s emailHash with
    | some _ => (.error .Conflict, s)
    | none =>
      let u : User := { id := newUserId, emailHash := emailHash, phoneHash := phoneHash, createdAt := now }
      let lc : LoginCode := { id := newCodeId, userId := newUserId, code := otp,
                              expiresAt := getOTPExpiry now 5, consumed := false, createdAt := now }
      (.ok (newUserId, otp), { users := s.users ++ [u], codes := s.codes ++ [lc] })

/-- The POST /login handler. -/
def login (s : Store) (now : Nat) (newCodeId otp : String)
    (email : Option String) : Except AuthError (String × String) × Store :=
  if !(present email) then (.error .BadRequest, s)
  else
    match findUserByEmailHash s (hashEmail (email.getD "")) with
    | none => (.error .NotFound, s)
    | some u =>
      let lc : LoginCode := { id := newCodeId, userId := u.id, code := otp,
                              expiresAt := getOTPExpiry now 5, consumed := false, createdAt := now }
      (.ok (u.id, otp), { s with codes := s.codes ++ [lc] })

/-- The POST /verify handler. -/
def verify (s : Store) (now : Nat) (userId code : Option String) :
    Except AuthError Unit × Store :=
  if !(present userId) || !(present code) then (.error .BadRequest, s)
  else
    let uid := userId.getD ""
    let c := code.getD ""
    match findLoginCode s uid c with
    | none => (.error .Unauthorized, s)
    | some lc =>
      if !(isOTPValid now lc.expiresAt) then (.error .Unauthorized, s)
      else (.ok (), markConsumed s lc.id)

/-- The part of the verify handler after its findFirst query: the expiry
check and the unconditional consumed update, applied to a previously read
row. Used to interleave two requests at the await boundary. -/
def verifyCommit (s : Store) (now : Nat) (r : Option LoginCode) : Bool × Store :=
  match r with
  | none => (false, s)
  | some lc =>
    if !(isOTPValid now lc.expiresAt) then (false, s)
    else (true, markConsumed s lc.id)

/-- Two concurrent verify requests for the same (userId, code),
interleaved so that both findFirst queries run before either update:
the schedule read A, read B, write A, write B permitted by the await
between the query and the update in the handler. -/
def raceVerify (s : Store) (now : Nat) (uid c : String) : Bool × Bool × Store :=
  let r1 := findLoginCode s uid c
  let r2 := findLoginCode s uid c
  let o1 := verifyCommit s now r1
  let o2 := verifyCommit o1.2 now r2
  (o1.1, o2.1, o2.2)

/-- The storage-layer insert into users under the unique index
users_emailHash_key of the migration: the insert is atomic and is refused
when a row with the same emailHash exists. -/
def dbCreateUser (s : Store) (u : User) : Option Store :=
  if s.users.any (fun v => v.emailHash == u.emailHash) then none
  else some { s with users := s.users ++ [u] }

/-- At most one user per distinct emailHash. -/
def uniqueEmailHash (s : Store) : Prop :=
  s.users.Pairwise (fun a b => a.emailHash ≠ b.emailHash)

end PerfumeAuth

namespace PerfumeAuth

/-! ## Character-level facts -/

theorem toNat_ofNat_valid (n : Nat) (h : n.isValidChar) : (Char.ofNat n).toNat = n := by
  simp [Char.ofNat, Char.ofNatAux, dif_pos h, Char.toNat, UInt32.toNat, BitVec.toNat_ofNatLt]

theorem lowerChar_of_upper {c : Char} (h : 65 ≤ c.toNat ∧ c.toNat ≤ 90) :
    lowerChar c = Char.ofNat (c.toNat + 32) := by
  unfold lowerChar
  rw [if_pos h]

theorem lowerChar_of_other {c : Char} (h : ¬(65 ≤ c.toNat ∧ c.toNat ≤ 90)) :
    lowerChar c = c := by
  unfold lowerChar
  rw [if_neg h]

theorem isWs_lowerChar (c : Char) : isWs (lowerChar c) = isWs c := by
  by_cases h : 65 ≤ c.toNat ∧ c.toNat ≤ 90
  · have hv : (c.toNat + 32).isValidChar := Or.inl (by omega)
    rw [lowerChar_of_upper h]
    unfold isWs
    rw [toNat_ofNat_valid _ hv, decide_eq_decide]
    omega
  · rw [lowerChar_of_other h]

theorem lowerChar_idem (c : Char) : lowerChar (lowerChar c) = lowerChar c := by
  by_cases h : 65 ≤ c.toNat ∧ c.toNat ≤ 90
  · have hv : (c.toNat + 32).isValidChar := Or.inl (by omega)
    rw [lowerChar_of_upper h]
    apply lowerChar_of_other
    rw [toNat_ofNat_valid _ hv]
    omega
  · rw [lowerChar_of_other h, lowerChar_of_other h]

/-! ## Trimming and lowercasing -/

theorem dropWhile_head_false {α : Type} {p : α → Bool} :
    ∀ {l : List α} {c : α}, (l.dropWhile p).head? = some c → p c = false := by
  intro l
  induction l with
  | nil => intro c h; simp [List.dropWhile] at h
  | cons a t ih =>
    intro c h
    rw [List.dropWhile_cons] at h
    by_cases hp : p a
    · rw [if_pos hp] at h; exact ih h
    · rw [if_neg hp] at h
      simp only [List.head?_cons, Option.some.injEq] at h
      subst h
      exact Bool.eq_false_iff.mpr hp

theorem dropWhile_eq_self {α : Type} {p : α → Bool} {l : List α}
    (h : ∀ c, l.head? = some c → p c = false) : l.dropWhile p = l := by
  cases l with
  | nil => rfl
  | cons a t =>
    rw [List.dropWhile_cons, if_neg]
    rw [h a rfl]
    simp

theorem getLast?_dropWhile {α : Type} {p : α → Bool} :
    ∀ {l : List α}, l.dropWhile p ≠ [] → (l.dropWhile p).getLast? = l.getLast? := by
  intro l
  induction l with
  | nil => intro h; simp [List.dropWhile] at h
  | cons a t ih =>
    intro h
    rw [List.dropWhile_cons] at h ⊢
    by_cases hp : p a
    · rw [if_pos hp] at h ⊢
      rw [ih h]
      have ht : t ≠ [] := by
        intro he
        subst he
        simp [List.dropWhile] at h
      cases t with
      | nil => exact absurd rfl ht
      | cons b u => rw [List.getLast?_cons_cons]
    · rw [if_neg hp]

theorem trimChars_head {l : List Char} {c : Char}
    (h : (trimChars l).head? = some c) : isWs c = false := by
  unfold trimChars at h
  rw [List.head?_reverse] at h
  have hne : ((l.dropWhile isWs).reverse.dropWhile isWs) ≠ [] := by
    intro he
    rw [he] at h
    simp at h
  rw [getLast?_dropWhile hne, List.getLast?_reverse] at h
  exact dropWhile_head_false h

theorem trimChars_last {l : List Char} {c : Char}
    (h : (trimChars l).getLast? = some c) : isWs c = false := by
  unfold trimChars at h
  rw [List.getLast?_reverse] at h
  exact dropWhile_head_false h

theorem trimChars_eq_self {l : List Char}
    (h1 : ∀ c, l.head? = some c → isWs c = false)
    (h2 : ∀ c, l.getLast? = some c → isWs c = false) : trimChars l = l := by
  unfold trimChars
  rw [dropWhile_eq_self h1]
  rw [dropWhile_eq_self (fun c hc => h2 c (by rwa [List.head?_reverse] at hc))]
  exact List.reverse_reverse l

theorem getLast?_map {α β : Type} (f : α → β) (l : List α) :
    (l.map f).getLast? = Option.map f l.getLast? := by
  rw [← List.head?_reverse, ← List.map_reverse, List.head?_map, List.head?_reverse]

end PerfumeAuth

namespace PerfumeAuth

theorem trimChars_map_lowerChar (l : List Char) :
    trimChars ((trimChars l).map lowerChar) = (trimChars l).map lowerChar := by
  apply trimChars_eq_self
  · intro c hc
    rw [List.head?_map] at hc
    cases hh : (trimChars l).head? with
    | none => rw [hh] at hc; simp at hc
    | some d =>
      rw [hh] at hc
      simp only [Option.map_some', Option.some.injEq] at hc
      subst hc
      rw [isWs_lowerChar]
      exact trimChars_head hh
  · intro c hc
    rw [getLast?_map] at hc
    cases hh : (trimChars l).getLast? with
    | none => rw [hh] at hc; simp at hc
    | some d =>
      rw [hh] at hc
      simp only [Option.map_some', Option.some.injEq] at hc
      subst hc
      rw [isWs_lowerChar]
      exact trimChars_last hh

theorem normalizeEmail_idem (s : String) :
    normalizeEmail (normalizeEmail s) = normalizeEmail s := by
  show (⟨(trimChars ((trimChars s.data).map lowerChar)).map lowerChar⟩ : String) = _
  rw [trimChars_map_lowerChar, List.map_map]
  have : ∀ a ∈ trimChars s.data, (lowerChar ∘ lowerChar) a = lowerChar a := by
    intro a _
    exact lowerChar_idem a
  rw [List.map_congr_left this]
  rfl

theorem dropWhile_append_all {α : Type} {p : α → Bool} :
    ∀ {w r : List α}, (∀ c ∈ w, p c = true) → (w ++ r).dropWhile p = r.dropWhile p := by
  intro w
  induction w with
  | nil => intro r _; rfl
  | cons a t ih =>
    intro r h
    rw [List.cons_append, List.dropWhile_cons, if_pos (h a (List.mem_cons_self a t))]
    exact ih (fun c hc => h c (List.mem_cons_of_mem a hc))

theorem dropWhile_all_nil {α : Type} {p : α → Bool} {l : List α}
    (h : ∀ c ∈ l, p c = true) : l.dropWhile p = [] := by
  have := dropWhile_append_all (p := p) (r := ([] : List α)) h
  simpa using this

theorem trimChars_all_ws {l : List Char} (h : ∀ c ∈ l, isWs c = true) :
    trimChars l = [] := by
  unfold trimChars
  rw [dropWhile_all_nil h]
  rfl

theorem trimChars_sandwich {w1 w2 m : List Char}
    (hw1 : ∀ c ∈ w1, isWs c = true) (hw2 : ∀ c ∈ w2, isWs c = true)
    (hh : ∀ c, m.head? = some c → isWs c = false)
    (hl : ∀ c, m.getLast? = some c → isWs c = false) :
    trimChars (w1 ++ m ++ w2) = m := by
  cases m with
  | nil =>
    apply trimChars_all_ws
    intro c hc
    simp only [List.append_nil, List.mem_append] at hc
    rcases hc with h | h
    · exact hw1 c h
    · exact hw2 c h
  | cons a t =>
    have hx : List.dropWhile isWs (w1 ++ ((a :: t) ++ w2)) = (a :: t) ++ w2 := by
      rw [dropWhile_append_all hw1]
      apply dropWhile_eq_self
      intro c hc
      rw [List.cons_append] at hc
      simp only [List.head?_cons, Option.some.injEq] at hc
      subst hc
      exact hh _ rfl
    have hy : List.dropWhile isWs ((a :: t) ++ w2).reverse = (a :: t).reverse := by
      rw [List.reverse_append]
      rw [dropWhile_append_all (fun c hc => hw2 c (List.mem_reverse.mp hc))]
      apply dropWhile_eq_self
      intro c hc
      rw [List.head?_reverse] at hc
      exact hl c hc
    unfold trimChars
    rw [List.append_assoc, hx, hy, List.reverse_reverse]

theorem forall2_map_lowerChar {m1 m2 : List Char}
    (h : List.Forall₂ (fun a b => lowerChar a = lowerChar b) m1 m2) :
    m1.map lowerChar = m2.map lowerChar := by
  induction h with
  | nil => rfl
  | cons hab _ ih => simp only [List.map_cons, hab, ih]

theorem forall2_head_ws {m1 m2 : List Char}
    (h : List.Forall₂ (fun a b => lowerChar a = lowerChar b) m1 m2)
    (hh : ∀ c, m1.head? = some c → isWs c = false) :
    ∀ c, m2.head? = some c → isWs c = false := by
  cases h with
  | nil => intro c hc; simp at hc
  | cons hab _ =>
    intro c hc
    simp only [List.head?_cons, Option.some.injEq] at hc
    subst hc
    have h1 := hh _ rfl
    rw [← isWs_lowerChar, ← hab, isWs_lowerChar] at *
    exact h1

theorem forall2_last_ws {m1 m2 : List Char}
    (h : List.Forall₂ (fun a b => lowerChar a = lowerChar b) m1 m2)
    (hl : ∀ c, m1.getLast? = some c → isWs c = false) :
    ∀ c, m2.getLast? = some c → isWs c = false := by
  have hrev := List.forall₂_reverse_iff.mpr h
  intro c hc
  rw [← List.head?_reverse] at hc
  refine forall2_head_ws hrev ?_ c hc
  intro d hd
  rw [List.head?_reverse] at hd
  exact hl d hd

end PerfumeAuth

namespace PerfumeAuth

/-! ## Shape of the hex digest -/

theorem round256_length (st : List Nat) (ki wi : Nat) :
    (round256 st ki wi).length = st.length := by
  unfold round256
  split <;> rfl

theorem foldl_round256_length (kws : List (Nat × Nat)) (h : List Nat) :
    (kws.foldl (fun st kw => round256 st kw.1 kw.2) h).length = h.length := by
  induction kws generalizing h with
  | nil => rfl
  | cons a t ih => rw [List.foldl_cons, ih, round256_length]

theorem compress_length (h block : List Nat) (hh : h.length = 8) :
    (compress h block).length = 8 := by
  unfold compress
  rw [List.length_map, List.length_zip, foldl_round256_length, hh]
  simp

theorem compressBlocks_length (n : Nat) :
    ∀ (bytes h : List Nat), h.length = 8 → (compressBlocks n bytes h).length = 8 := by
  induction n with
  | zero => intro bytes h hh; exact hh
  | succ k ih => intro bytes h hh; exact ih _ _ (compress_length _ _ hh)

theorem flatten_wordHex_length (hs : List Nat) :
    ((hs.map wordHex).flatten).length = 8 * hs.length := by
  induction hs with
  | nil => rfl
  | cons a t ih =>
    rw [List.map_cons, List.flatten_cons, List.length_append, ih]
    simp [wordHex]
    ring

theorem hashString_length (s : String) : (hashString s).length = 64 := by
  unfold hashString
  show ((compressBlocks _ _ H0).map wordHex).flatten.length = 64
  rw [flatten_wordHex_length, compressBlocks_length _ _ _ (by rfl)]

/-- Lowercase hexadecimal character test (0-9 or a-f). -/
theorem hexChar_range {d : Nat} (h : d ≤ 15) :
    (48 ≤ (hexChar d).toNat ∧ (hexChar d).toNat ≤ 57) ∨
    (97 ≤ (hexChar d).toNat ∧ (hexChar d).toNat ≤ 102) := by
  unfold hexChar
  split
  next hd =>
    rw [toNat_ofNat_valid _ (Or.inl (by omega))]
    omega
  next hd =>
    rw [toNat_ofNat_valid _ (Or.inl (by omega))]
    omega

theorem wordHex_mem_range {w : Nat} {c : Char} (hc : c ∈ wordHex w) :
    (48 ≤ c.toNat ∧ c.toNat ≤ 57) ∨ (97 ≤ c.toNat ∧ c.toNat ≤ 102) := by
  have h15 : ∀ x : Nat, x &&& 15 ≤ 15 := fun x => Nat.and_le_right
  unfold wordHex at hc
  simp only [List.mem_cons, List.not_mem_nil, or_false] at hc
  rcases hc with h | h | h | h | h | h | h | h <;> (subst h; exact hexChar_range (h15 _))

theorem hashString_hex (s : String) :
    ∀ c ∈ (hashString s).data,
      (48 ≤ c.toNat ∧ c.toNat ≤ 57) ∨ (97 ≤ c.toNat ∧ c.toNat ≤ 102) := by
  intro c hc
  have hc' : c ∈ (List.map wordHex
      (compressBlocks ((padded (strBytes s)).length / 64) (padded (strBytes s)) H0)).flatten := hc
  rw [List.mem_flatten] at hc'
  obtain ⟨l, hl, hcl⟩ := hc'
  rw [List.mem_map] at hl
  obtain ⟨w, _, hw⟩ := hl
  subst hw
  exact wordHex_mem_range hcl

/-! ## Shape of generateOTP -/

theorem decDigitChar_toNat {d : Nat} (h : d < 10) : (decDigitChar d).toNat = 48 + d :=
  toNat_ofNat_valid _ (Or.inl (by omega))

theorem natToDigitsAux_range : ∀ (fuel n : Nat),
    ∀ c ∈ natToDigitsAux fuel n, 48 ≤ c.toNat ∧ c.toNat ≤ 57 := by
  intro fuel
  induction fuel with
  | zero => intro n c hc; cases hc
  | succ f ih =>
    intro n c hc
    rw [natToDigitsAux] at hc
    split at hc
    next h =>
      simp only [List.mem_singleton] at hc
      subst hc
      rw [decDigitChar_toNat h]
      omega
    next h =>
      rw [List.mem_append] at hc
      rcases hc with hc | hc
      · exact ih _ c hc
      · simp only [List.mem_singleton] at hc
        subst hc
        rw [decDigitChar_toNat (Nat.mod_lt _ (by omega))]
        have := Nat.mod_lt n (y := 10) (by omega)
        omega

theorem natToDigits_range (n : Nat) :
    ∀ c ∈ natToDigits n, 48 ≤ c.toNat ∧ c.toNat ≤ 57 :=
  natToDigitsAux_range (n + 1) n

theorem natToDigitsAux_length_le : ∀ (fuel k n : Nat), 1 ≤ k → n < 10 ^ k →
    (natToDigitsAux fuel n).length ≤ k := by
  intro fuel
  induction fuel with
  | zero =>
    intro k n hk _
    simp [natToDigitsAux]
  | succ f ih =>
    intro k n hk hn
    rw [natToDigitsAux]
    split
    next h =>
      simp only [List.length_singleton]
      omega
    next h =>
      rw [List.length_append, List.length_singleton]
      have hk2 : 1 ≤ k - 1 := by
        rcases Nat.lt_or_ge k 2 with hk0 | hk0
        · exfalso
          have hk1 : k = 1 := by omega
          subst hk1
          rw [pow_one] at hn
          omega
        · omega
      have hdiv : n / 10 < 10 ^ (k - 1) := by
        rw [Nat.div_lt_iff_lt_mul (by norm_num)]
        calc n < 10 ^ k := hn
        _ = 10 ^ (k - 1) * 10 := by
              rw [← pow_succ]
              congr 1
              omega
      have := ih (k - 1) (n / 10) hk2 hdiv
      omega

theorem natToDigits_length_le (k n : Nat) (hk : 1 ≤ k) (hn : n < 10 ^ k) :
    (natToDigits n).length ≤ k :=
  natToDigitsAux_length_le (n + 1) k n hk hn

theorem generateOTP_data (n : Nat) :
    (generateOTP n).data = List.replicate (6 - (natToDigits n).length) '0' ++ natToDigits n := rfl

theorem generateOTP_range (n : Nat) :
    ∀ c ∈ (generateOTP n).data, 48 ≤ c.toNat ∧ c.toNat ≤ 57 := by
  intro c hc
  rw [generateOTP_data, List.mem_append] at hc
  rcases hc with hc | hc
  · have := List.eq_of_mem_replicate hc
    subst this
    constructor <;> decide
  · exact natToDigits_range n c hc

theorem generateOTP_length {n : Nat} (h : n < 1000000) :
    (generateOTP n).length = 6 := by
  have hlen : (natToDigits n).length ≤ 6 := natToDigits_length_le 6 n (by omega) (by omega)
  show (List.replicate (6 - (natToDigits n).length) '0' ++ natToDigits n).length = 6
  rw [List.length_append, List.length_replicate]
  omega

/-! ## Lexicographic bounds for digit strings -/

theorem not_lex_lt_zeros : ∀ (n : Nat) (l : List Char),
    (∀ c ∈ l, 48 ≤ c.toNat) → l.length = n →
    ¬ List.Lex (· < ·) l (List.replicate n '0') := by
  intro n
  induction n with
  | zero =>
    intro l _ hl hlex
    rw [List.length_eq_zero] at hl
    subst hl
    cases hlex
  | succ k ih =>
    intro l h hl hlex
    cases l with
    | nil => simp at hl
    | cons a t =>
      rw [List.replicate_succ] at hlex
      cases hlex with
      | rel hr =>
        rw [Char.lt_def] at hr
        have ha : a.toNat < 48 := hr
        have := h a (List.mem_cons_self a t)
        omega
      | cons htail =>
        exact ih t (fun c hc => h c (List.mem_cons_of_mem _ hc)) (by simpa using hl) htail

theorem not_lex_nines_lt : ∀ (n : Nat) (l : List Char),
    (∀ c ∈ l, c.toNat ≤ 57) → l.length = n →
    ¬ List.Lex (· < ·) (List.replicate n '9') l := by
  intro n
  induction n with
  | zero =>
    intro l _ hl hlex
    rw [List.length_eq_zero] at hl
    subst hl
    cases hlex
  | succ k ih =>
    intro l h hl hlex
    cases l with
    | nil => simp at hl
    | cons a t =>
      rw [List.replicate_succ] at hlex
      cases hlex with
      | rel hr =>
        rw [Char.lt_def] at hr
        have ha : 57 < a.toNat := hr
        have := h a (List.mem_cons_self a t)
        omega
      | cons htail =>
        exact ih t (fun c hc => h c (List.mem_cons_of_mem _ hc)) (by simpa using hl) htail

end PerfumeAuth

namespace PerfumeAuth

/-! ## Store-level helper lemmas -/

theorem present_some {s : String} (h : s ≠ "") : present (some s) = true := by
  simp [present, h]

theorem pairwise_ne_id_eq {l : List LoginCode}
    (hp : l.Pairwise (fun a b => a.id ≠ b.id)) :
    ∀ {x y : LoginCode}, x ∈ l → y ∈ l → x.id = y.id → x = y := by
  induction l with
  | nil => intro x y hx _ _; cases hx
  | cons a t ih =>
    rw [List.pairwise_cons] at hp
    intro x y hx hy hid
    cases hx with
    | head =>
      cases hy with
      | head => rfl
      | tail _ hy' => exact absurd hid (hp.1 _ hy')
    | tail _ hx' =>
      cases hy with
      | head => exact absurd hid.symm (hp.1 _ hx')
      | tail _ hy' => exact ih hp.2 hx' hy' hid

theorem verify_eq_of_find {s : Store} {now : Nat} {uid c : String}
    (huid : uid ≠ "") (hc : c ≠ "") :
    verify s now (some uid) (some c) =
      match findLoginCode s uid c with
      | none => (.error .Unauthorized, s)
      | some lc =>
        if !(isOTPValid now lc.expiresAt) then (.error .Unauthorized, s)
        else (.ok (), markConsumed s lc.id) := by
  unfold verify
  rw [present_some huid, present_some hc]
  simp

end PerfumeAuth

namespace PerfumeAuth

/-- Claim C2: when the most recently created unconsumed LoginCode matching
(userId, code) has an expiry that is not strictly after the current time,
verify fails with Unauthorized and returns the store unchanged, so no stored
LoginCode is mutated and that code's consumed flag remains false. -/
theorem C2_verify_expired_no_mutation (s : Store) (now : Nat) (uid c : String)
    (lc : LoginCode) (huid : uid ≠ "") (hc : c ≠ "")
    (hfind : findLoginCode s uid c = some lc)
    (hexp : lc.expiresAt ≤ now) :
    verify s now (some uid) (some c) = (.error .Unauthorized, s) := by
  rw [verify_eq_of_find huid hc, hfind]
  have hv : isOTPValid now lc.expiresAt = false := by
    unfold isOTPValid
    rw [decide_eq_false_iff_not]
    omega
  simp [hv]

/-- Witness for C2 at a concrete store: one unconsumed code that expired at
time 50 is rejected at time 100 and the store is returned unchanged. -/
theorem C2_witness :
    verify (Store.mk [] [LoginCode.mk "c1" "u1" "111111" 50 false 10]) 100
        (some "u1") (some "111111") =
      (.error .Unauthorized, Store.mk [] [LoginCode.mk "c1" "u1" "111111" 50 false 10]) :=
  C2_verify_expired_no_mutation _ 100 "u1" "111111"
    (LoginCode.mk "c1" "u1" "111111" 50 false 10)
    (by decide) (by decide) (by decide) (by decide)

end PerfumeAuth

namespace PerfumeAuth

/-- Claim C1, counterexample: a store can contain an unconsumed, unexpired
LoginCode matching (userId, code) while verify still fails, because the
findFirst query orders by createdAt only and picks a newer expired match:
with an unexpired match created at time 10 and an expired match created at
time 20, verify at time 100 returns Unauthorized. -/
theorem C1_counterexample :
    (∃ lc ∈ (Store.mk [] [LoginCode.mk "c1" "u1" "222222" 1000 false 10,
                          LoginCode.mk "c2" "u1" "222222" 50 false 20]).codes,
        lc.userId = "u1" ∧ lc.code = "222222" ∧ lc.consumed = false ∧ 100 < lc.expiresAt) ∧
    (verify (Store.mk [] [LoginCode.mk "c1" "u1" "222222" 1000 false 10,
                          LoginCode.mk "c2" "u1" "222222" 50 false 20]) 100
        (some "u1") (some "222222")).1 = Except.error AuthError.Unauthorized := by
  decide

/-- Claim C1 (amended): in a store whose login-code ids are pairwise distinct
and in which exactly one LoginCode matches (userId, code, consumed = false),
if that code is unexpired then verify succeeds and marks exactly that code
consumed (users and all other codes are unchanged), and a second verify with
the same (userId, code) on the resulting store fails with Unauthorized at
any later time. -/
theorem C1_verify_consumes_once (s : Store) (now now' : Nat) (uid c : String)
    (lc : LoginCode) (huid : uid ≠ "") (hc : c ≠ "")
    (hids : s.codes.Pairwise (fun a b => a.id ≠ b.id))
    (hfilter : s.codes.filter (codeMatches uid c) = [lc])
    (hexp : now < lc.expiresAt) :
    verify s now (some uid) (some c) = (.ok (), markConsumed s lc.id) ∧
    (markConsumed s lc.id).users = s.users ∧
    { lc with consumed := true } ∈ (markConsumed s lc.id).codes ∧
    (∀ x ∈ s.codes, x ≠ lc → x ∈ (markConsumed s lc.id).codes) ∧
    verify (markConsumed s lc.id) now' (some uid) (some c) =
      (.error .Unauthorized, markConsumed s lc.id) := by
  have hlcmem : lc ∈ s.codes.filter (codeMatches uid c) := by
    rw [hfilter]
    exact List.mem_singleton.mpr rfl
  have hmem : lc ∈ s.codes := (List.mem_filter.mp hlcmem).1
  have hfind : findLoginCode s uid c = some lc := by
    unfold findLoginCode
    rw [hfilter]
    rfl
  have hv : isOTPValid now lc.expiresAt = true := decide_eq_true hexp
  refine ⟨?_, rfl, ?_, ?_, ?_⟩
  · rw [verify_eq_of_find huid hc, hfind]
    simp [hv]
  · show _ ∈ s.codes.map _
    refine List.mem_map.mpr ⟨lc, hmem, ?_⟩
    simp
  · intro x hx hne
    have hxid : x.id ≠ lc.id := fun he => hne (pairwise_ne_id_eq hids hx hmem he)
    show _ ∈ s.codes.map _
    refine List.mem_map.mpr ⟨x, hx, ?_⟩
    simp [hxid]
  · rw [verify_eq_of_find huid hc]
    have hnone : findLoginCode (markConsumed s lc.id) uid c = none := by
      unfold findLoginCode markConsumed
      have hnil : (s.codes.map fun x =>
          if x.id == lc.id then { x with consumed := true } else x).filter
            (codeMatches uid c) = [] := by
        rw [List.filter_eq_nil_iff]
        intro y hy
        rw [List.mem_map] at hy
        obtain ⟨x, hx, rfl⟩ := hy
        by_cases hid : x.id = lc.id
        · rw [if_pos (by simp [hid])]
          simp [codeMatches]
        · rw [if_neg (by simp [hid])]
          intro hcm
          have hxf : x ∈ s.codes.filter (codeMatches uid c) :=
            List.mem_filter.mpr ⟨hx, hcm⟩
          rw [hfilter] at hxf
          exact hid (congrArg LoginCode.id (List.mem_singleton.mp hxf))
      rw [hnil]
      rfl
    rw [hnone]

/-- Witness for the amended C1 at a concrete store with a single valid code:
the first verify succeeds and the second fails with Unauthorized. -/
theorem C1_witness :
    verify (Store.mk [] [LoginCode.mk "c1" "u1" "123456" 1000 false 10]) 100
        (some "u1") (some "123456") =
      (.ok (), markConsumed (Store.mk [] [LoginCode.mk "c1" "u1" "123456" 1000 false 10]) "c1") ∧
    verify (markConsumed (Store.mk [] [LoginCode.mk "c1" "u1" "123456" 1000 false 10]) "c1") 200
        (some "u1") (some "123456") =
      (.error .Unauthorized,
       markConsumed (Store.mk [] [LoginCode.mk "c1" "u1" "123456" 1000 false 10]) "c1") := by
  have h := C1_verify_consumes_once
    (Store.mk [] [LoginCode.mk "c1" "u1" "123456" 1000 false 10]) 100 200 "u1" "123456"
    (LoginCode.mk "c1" "u1" "123456" 1000 false 10)
    (by decide) (by decide) (by simp) (by decide) (by decide)
  exact ⟨h.1, h.2.2.2.2⟩

end PerfumeAuth

namespace PerfumeAuth

theorem isDigit_of_range {c : Char} (h1 : 48 ≤ c.toNat) (h2 : c.toNat ≤ 57) :
    c.isDigit = true := by
  show ('0' ≤ c && c ≤ '9') = true
  rw [Bool.and_eq_true]
  constructor
  · rw [decide_eq_true_eq, Char.le_def]
    exact h1
  · rw [decide_eq_true_eq, Char.le_def]
    exact h2

theorem signup_eq_of_present {s : Store} {now : Nat} {nuid ncid otp : String}
    {e p : String} (he : e ≠ "") (hp : p ≠ "") :
    signup s now nuid ncid otp (some e) (some p) =
      match findUserByEmailHash s (hashEmail e) with
      | some _ => (.error .Conflict, s)
      | none =>
        (.ok (nuid, otp),
         Store.mk (s.users ++ [User.mk nuid (hashEmail e) (hashPhone p) now])
           (s.codes ++ [LoginCode.mk ncid nuid otp (getOTPExpiry now 5) false now])) := by
  unfold signup
  rw [present_some he, present_some hp]
  simp

theorem login_eq_of_present {s : Store} {now : Nat} {ncid otp : String}
    {e : String} (he : e ≠ "") :
    login s now ncid otp (some e) =
      match findUserByEmailHash s (hashEmail e) with
      | none => (.error .NotFound, s)
      | some u =>
        (.ok (u.id, otp),
         Store.mk s.users
           (s.codes ++ [LoginCode.mk ncid u.id otp (getOTPExpiry now 5) false now])) := by
  unfold login
  rw [present_some he]
  simp

/-- Claim C3: the verify handler performs findFirst and then an
unconditional update of the row by id, with an await boundary between them;
under the interleaving in which both concurrent requests run their findFirst
before either update, both calls succeed on the same valid code, violating
the exactly-one-success requirement (a double spend of the login code). -/
theorem C3_race_double_spend :
    raceVerify (Store.mk [] [LoginCode.mk "c1" "u1" "123456" 400000 false 0]) 100
        "u1" "123456" =
      (true, true, Store.mk [] [LoginCode.mk "c1" "u1" "123456" 400000 true 0]) := by
  decide

/-- Claim C4, counterexample: the universally quantified claim fails on
empty email input, which the handler rejects with BadRequest before the
duplicate check; the store shown contains a user whose emailHash equals
hashEmail of the empty string (such a user is reachable by signing up with
a whitespace-only email), yet signup returns BadRequest, not Conflict. -/
theorem C4_counterexample :
    (∃ u ∈ (Store.mk [User.mk "u1"
        "e3b0c44298fc1c149afbf4c8996fb92427ae41e4649b934ca495991b7852b855" "p" 0] []).users,
      u.emailHash = hashEmail "") ∧
    signup (Store.mk [User.mk "u1"
        "e3b0c44298fc1c149afbf4c8996fb92427ae41e4649b934ca495991b7852b855" "p" 0] [])
        0 "u2" "k1" "111111" (some "") (some "1") =
      (.error .BadRequest,
       Store.mk [User.mk "u1"
        "e3b0c44298fc1c149afbf4c8996fb92427ae41e4649b934ca495991b7852b855" "p" 0] []) := by
  decide

/-- Claim C4 (amended): for non-empty email and phone inputs, signup fails
with Conflict and leaves the store unchanged when a user with the same
emailHash exists, and otherwise creates exactly one new user and one new
unconsumed LoginCode with a 5-minute expiry, returning the new user id and
the code. -/
theorem C4_signup_conflict_or_create (s : Store) (now : Nat)
    (nuid ncid otp e p : String) (he : e ≠ "") (hp : p ≠ "") :
    ((∃ u ∈ s.users, u.emailHash = hashEmail e) →
      signup s now nuid ncid otp (some e) (some p) = (.error .Conflict, s)) ∧
    ((∀ u ∈ s.users, u.emailHash ≠ hashEmail e) →
      signup s now nuid ncid otp (some e) (some p) =
        (.ok (nuid, otp),
         Store.mk (s.users ++ [User.mk nuid (hashEmail e) (hashPhone p) now])
           (s.codes ++ [LoginCode.mk ncid nuid otp (now + 5 * 60000) false now]))) := by
  constructor
  · rintro ⟨u, hu, hhash⟩
    cases hfu : findUserByEmailHash s (hashEmail e) with
    | some v => rw [signup_eq_of_present he hp, hfu]
    | none =>
      exfalso
      have := List.find?_eq_none.mp hfu u hu
      rw [hhash] at this
      simp at this
  · intro hall
    cases hfu : findUserByEmailHash s (hashEmail e) with
    | none =>
      rw [signup_eq_of_present he hp, hfu]
      rfl
    | some v =>
      exfalso
      have hfu' : List.find? (fun u => u.emailHash == hashEmail e) s.users = some v := hfu
      have hv := List.find?_some hfu'
      have hvm : v ∈ s.users := List.mem_of_find?_eq_some hfu'
      exact hall v hvm (by simpa using hv)

/-- Witness for the amended C4: a duplicate signup is rejected with
Conflict; a fresh signup creates the user and its login code. -/
theorem C4_witness :
    signup (Store.mk [User.mk "u1" (hashEmail "a@b.c") "q" 0] []) 5 "u2" "k1" "111111"
        (some "a@b.c") (some "77") =
      (.error .Conflict, Store.mk [User.mk "u1" (hashEmail "a@b.c") "q" 0] []) ∧
    signup (Store.mk [] []) 5 "u1" "k1" "111111" (some "a@b.c") (some "77") =
      (.ok ("u1", "111111"),
       Store.mk [User.mk "u1" (hashEmail "a@b.c") (hashPhone "77") 5]
         [LoginCode.mk "k1" "u1" "111111" (5 + 5 * 60000) false 5]) := by
  constructor
  · exact (C4_signup_conflict_or_create _ 5 "u2" "k1" "111111" "a@b.c" "77"
      (by decide) (by decide)).1
      ⟨User.mk "u1" (hashEmail "a@b.c") "q" 0, by simp, rfl⟩
  · have h := (C4_signup_conflict_or_create (Store.mk [] []) 5 "u1" "k1" "111111" "a@b.c" "77"
      (by decide) (by decide)).2 (by simp)
    simpa using h

end PerfumeAuth

namespace PerfumeAuth

/-- Claim C5: the unique index users_emailHash_key makes the storage-layer
insert atomic and conditional, so the at-most-one-user-per-emailHash
invariant is preserved by every successful insert, and after any successful
insert a second insert with the same emailHash fails at the storage layer
regardless of the application-level existence check. -/
theorem C5_storage_unique (s : Store) :
    (uniqueEmailHash s →
      ∀ (u : User) (s' : Store), dbCreateUser s u = some s' → uniqueEmailHash s') ∧
    (∀ (u1 u2 : User) (s' : Store), dbCreateUser s u1 = some s' →
      u2.emailHash = u1.emailHash → dbCreateUser s' u2 = none) := by
  constructor
  · intro hu u s' hdb
    unfold dbCreateUser at hdb
    by_cases hany : s.users.any (fun v => v.emailHash == u.emailHash) = true
    · rw [if_pos hany] at hdb
      cases hdb
    · rw [if_neg hany] at hdb
      cases hdb
      unfold uniqueEmailHash at hu ⊢
      show (s.users ++ [u]).Pairwise _
      rw [List.pairwise_append]
      refine ⟨hu, List.pairwise_singleton _ _, ?_⟩
      intro a ha b hb
      rw [List.mem_singleton] at hb
      subst hb
      intro he
      apply hany
      rw [List.any_eq_true]
      exact ⟨a, ha, by simp [he]⟩
  · intro u1 u2 s' hdb hh
    unfold dbCreateUser at hdb
    by_cases hany : s.users.any (fun v => v.emailHash == u1.emailHash) = true
    · rw [if_pos hany] at hdb
      cases hdb
    · rw [if_neg hany] at hdb
      cases hdb
      unfold dbCreateUser
      rw [if_pos]
      rw [List.any_eq_true]
      exact ⟨u1, by simp, by simp [hh]⟩

/-- Witness for C5: after inserting a user, inserting another user with the
same emailHash is refused by the storage layer, and the resulting store
still satisfies the uniqueness invariant. -/
theorem C5_witness :
    dbCreateUser (Store.mk [User.mk "u1" "h" "p" 0] []) (User.mk "u2" "h" "p2" 1) = none ∧
    uniqueEmailHash (Store.mk [User.mk "u1" "h" "p" 0] []) := by
  constructor
  · exact (C5_storage_unique (Store.mk [] [])).2 (User.mk "u1" "h" "p" 0)
      (User.mk "u2" "h" "p2" 1) (Store.mk [User.mk "u1" "h" "p" 0] []) (by decide) rfl
  · exact (C5_storage_unique (Store.mk [] [])).1
      (by unfold uniqueEmailHash; exact List.Pairwise.nil)
      (User.mk "u1" "h" "p" 0) (Store.mk [User.mk "u1" "h" "p" 0] []) (by decide)

/-- Claim C8, counterexample: with an empty email input, no user matches its
emailHash, yet login returns BadRequest (the truthiness validation rejects
the empty string before the lookup), not NotFound as the universally
quantified claim requires. -/
theorem C8_counterexample :
    (∀ u ∈ (Store.mk [] []).users, u.emailHash ≠ hashEmail "") ∧
    login (Store.mk [] []) 0 "k1" "111111" (some "") =
      (.error .BadRequest, Store.mk [] []) := by
  constructor
  · intro u hu
    cases hu
  · decide

/-- Claim C8 (amended): for a non-empty email input, login fails with
NotFound and leaves the store unchanged when no user matches the emailHash;
when the lookup finds a user, login leaves all users and all existing codes
unchanged and appends exactly one new unconsumed LoginCode with a 5-minute
expiry for that user, so multiple codes for the same user may be valid
simultaneously. -/
theorem C8_login_notfound_or_new_code (s : Store) (now : Nat)
    (ncid otp e : String) (he : e ≠ "") :
    ((∀ u ∈ s.users, u.emailHash ≠ hashEmail e) →
      login s now ncid otp (some e) = (.error .NotFound, s)) ∧
    (∀ u, findUserByEmailHash s (hashEmail e) = some u →
      login s now ncid otp (some e) =
        (.ok (u.id, otp),
         Store.mk s.users
           (s.codes ++ [LoginCode.mk ncid u.id otp (now + 5 * 60000) false now]))) := by
  constructor
  · intro hall
    cases hfu : findUserByEmailHash s (hashEmail e) with
    | none =>
      rw [login_eq_of_present he, hfu]
    | some v =>
      exfalso
      have hfu' : List.find? (fun u => u.emailHash == hashEmail e) s.users = some v := hfu
      have hv := List.find?_some hfu'
      exact hall v (List.mem_of_find?_eq_some hfu') (by simpa using hv)
  · intro u hfu
    rw [login_eq_of_present he, hfu]
    rfl

/-- Witness for the amended C8: login on an empty store is NotFound; login
for an existing user appends one new code and keeps the old code. -/
theorem C8_witness :
    login (Store.mk [] []) 3 "k1" "111111" (some "a@b.c") =
      (.error .NotFound, Store.mk [] []) ∧
    login (Store.mk [User.mk "u1" (hashEmail "a@b.c") "q" 0]
        [LoginCode.mk "k0" "u1" "999999" 7 false 2]) 3 "k1" "111111" (some "a@b.c") =
      (.ok ("u1", "111111"),
       Store.mk [User.mk "u1" (hashEmail "a@b.c") "q" 0]
         [LoginCode.mk "k0" "u1" "999999" 7 false 2,
          LoginCode.mk "k1" "u1" "111111" (3 + 5 * 60000) false 3]) := by
  constructor
  · exact (C8_login_notfound_or_new_code (Store.mk [] []) 3 "k1" "111111" "a@b.c"
      (by decide)).1 (by simp)
  · have h := (C8_login_notfound_or_new_code
      (Store.mk [User.mk "u1" (hashEmail "a@b.c") "q" 0]
        [LoginCode.mk "k0" "u1" "999999" 7 false 2]) 3 "k1" "111111" "a@b.c"
      (by decide)).2 (User.mk "u1" (hashEmail "a@b.c") "q" 0)
      (by simp [findUserByEmailHash])
    simpa using h

/-- Claim C9: each of the three handlers returns BadRequest and leaves the
store unchanged whenever a required field is missing or empty (JavaScript
falsy), before any lookup or write is performed. -/
theorem C9_bad_request_before_storage (s : Store) (now : Nat)
    (nuid ncid otp : String) (email phone uid code : Option String) :
    ((present email = false ∨ present phone = false) →
      signup s now nuid ncid otp email phone = (.error .BadRequest, s)) ∧
    (present email = false →
      login s now ncid otp email = (.error .BadRequest, s)) ∧
    ((present uid = false ∨ present code = false) →
      verify s now uid code = (.error .BadRequest, s)) := by
  refine ⟨?_, ?_, ?_⟩
  · intro h
    unfold signup
    rcases h with h | h <;> rw [h] <;> simp
  · intro h
    unfold login
    rw [h]
    simp
  · intro h
    unfold verify
    rcases h with h | h <;> rw [h] <;> simp

/-- Witness for C9: a signup without email, a login with an empty email and
a verify without code are all rejected with BadRequest on the unchanged
store. -/
theorem C9_witness :
    signup (Store.mk [] []) 0 "u" "k" "111111" none (some "5") =
      (.error .BadRequest, Store.mk [] []) ∧
    login (Store.mk [] []) 0 "k" "111111" (some "") =
      (.error .BadRequest, Store.mk [] []) ∧
    verify (Store.mk [] []) 0 (some "u1") none =
      (.error .BadRequest, Store.mk [] []) := by
  refine ⟨?_, ?_, ?_⟩
  · exact (C9_bad_request_before_storage (Store.mk [] []) 0 "u" "k" "111111"
      none (some "5") (some "u1") none).1 (Or.inl rfl)
  · exact (C9_bad_request_before_storage (Store.mk [] []) 0 "u" "k" "111111"
      (some "") (some "5") (some "u1") none).2.1 rfl
  · exact (C9_bad_request_before_storage (Store.mk [] []) 0 "u" "k" "111111"
      none (some "5") (some "u1") none).2.2 (Or.inr rfl)

end PerfumeAuth

namespace PerfumeAuth

/-- Claim C7: for every draw of crypto.randomInt(0, 1000000), generateOTP
returns a string of exactly 6 decimal digits, zero-padded on the left,
lying between "000000" and "999999" in string order. -/
theorem C7_generateOTP_six_digits (n : Nat) (h : n < 1000000) :
    (generateOTP n).length = 6 ∧
    (∀ c ∈ (generateOTP n).data, c.isDigit = true) ∧
    "000000" ≤ generateOTP n ∧ generateOTP n ≤ "999999" := by
  refine ⟨generateOTP_length h, ?_, ?_, ?_⟩
  · intro c hc
    have hr := generateOTP_range n c hc
    exact isDigit_of_range hr.1 hr.2
  · rw [String.le_iff_toList_le, ← not_lt]
    intro hlt
    have hz : ("000000" : String).toList = List.replicate 6 '0' := by decide
    rw [hz] at hlt
    exact not_lex_lt_zeros 6 (generateOTP n).toList
      (fun c hc => (generateOTP_range n c hc).1) (generateOTP_length h) hlt
  · rw [String.le_iff_toList_le, ← not_lt]
    intro hlt
    have hn : ("999999" : String).toList = List.replicate 6 '9' := by decide
    rw [hn] at hlt
    exact not_lex_nines_lt 6 (generateOTP n).toList
      (fun c hc => (generateOTP_range n c hc).2) (generateOTP_length h) hlt

/-- Witness for C7: the draw 7 yields the zero-padded six-digit code
"000007" within the stated range. -/
theorem C7_witness :
    generateOTP 7 = "000007" ∧ (generateOTP 7).length = 6 ∧
    "000000" ≤ generateOTP 7 ∧ generateOTP 7 ≤ "999999" := by
  have h := C7_generateOTP_six_digits 7 (by decide)
  exact ⟨by decide, h.1, h.2.2.1, h.2.2.2⟩

/-- Claim C6, counterexample: "a b@x.com" and "ab@x.com" differ only in
whitespace (they agree after discarding whitespace and letter case), yet
their email hashes differ, because trim removes only the surrounding
whitespace and the interior space survives normalization. -/
theorem C6_counterexample :
    (("a b@x.com").data.filter (fun c => !isWs c)).map lowerChar =
      (("ab@x.com").data.filter (fun c => !isWs c)).map lowerChar ∧
    hashEmail "a b@x.com" ≠ hashEmail "ab@x.com" := by
  decide

/-- Claim C6 (amended): normalizeEmail is idempotent, hashString is
deterministic, every email hash is a 64-character string of lowercase hex
digits, and two email strings that differ only in letter case and in
leading and trailing whitespace hash identically. -/
theorem C6_email_normalization_amended :
    (∀ e : String, normalizeEmail (normalizeEmail e) = normalizeEmail e) ∧
    (∀ a b : String, a = b → hashString a = hashString b) ∧
    (∀ e : String, (hashEmail e).length = 64 ∧
      ∀ c ∈ (hashEmail e).data,
        (48 ≤ c.toNat ∧ c.toNat ≤ 57) ∨ (97 ≤ c.toNat ∧ c.toNat ≤ 102)) ∧
    (∀ (w1 w2 w3 w4 m1 m2 : List Char),
      (∀ c ∈ w1, isWs c = true) → (∀ c ∈ w2, isWs c = true) →
      (∀ c ∈ w3, isWs c = true) → (∀ c ∈ w4, isWs c = true) →
      List.Forall₂ (fun a b => lowerChar a = lowerChar b) m1 m2 →
      (∀ c, m1.head? = some c → isWs c = false) →
      (∀ c, m1.getLast? = some c → isWs c = false) →
      hashEmail ⟨w1 ++ m1 ++ w2⟩ = hashEmail ⟨w3 ++ m2 ++ w4⟩) := by
  refine ⟨normalizeEmail_idem, ?_, ?_, ?_⟩
  · intro a b hab
    rw [hab]
  · intro e
    exact ⟨hashString_length _, hashString_hex _⟩
  · intro w1 w2 w3 w4 m1 m2 hw1 hw2 hw3 hw4 hf hh hl
    have hn : normalizeEmail ⟨w1 ++ m1 ++ w2⟩ = normalizeEmail ⟨w3 ++ m2 ++ w4⟩ := by
      show (⟨(trimChars (w1 ++ m1 ++ w2)).map lowerChar⟩ : String) =
        (⟨(trimChars (w3 ++ m2 ++ w4)).map lowerChar⟩ : String)
      rw [trimChars_sandwich hw1 hw2 hh hl,
        trimChars_sandwich hw3 hw4 (forall2_head_ws hf hh) (forall2_last_ws hf hl),
        forall2_map_lowerChar hf]
    unfold hashEmail
    rw [hn]

/-- Witness for the amended C6: " A" and "a  " (case change plus leading
and trailing whitespace) hash identically, and normalization is idempotent
on a concrete mixed string. -/
theorem C6_witness :
    hashEmail (String.mk ([' '] ++ ['A'] ++ [])) =
      hashEmail (String.mk ([] ++ ['a'] ++ [' ', ' '])) ∧
    normalizeEmail (normalizeEmail " Mixed Case@X.y ") =
      normalizeEmail " Mixed Case@X.y " := by
  constructor
  · exact C6_email_normalization_amended.2.2.2 [' '] [] [] [' ', ' '] ['A'] ['a']
      (by decide) (by decide) (by decide) (by decide)
      (List.Forall₂.cons (by decide) List.Forall₂.nil)
      (fun c hc => by injection hc with h; subst h; decide)
      (fun c hc => by injection hc with h; subst h; decide)
  · exact C6_email_normalization_amended.1 " Mixed Case@X.y "

/-- Claim C10: any non-empty phone input without a decimal digit passes
signup's truthiness validation, normalizes to the empty string, and is
stored with phoneHash equal to the SHA-256 digest of the empty string, so
all such inputs collide to one stored phoneHash. -/
theorem C10_phone_without_digits (p : String) (hp : p ≠ "")
    (hnd : ∀ c ∈ p.data, c.isDigit = false) :
    present (some p) = true ∧
    normalizePhone p = "" ∧
    hashPhone p = "e3b0c44298fc1c149afbf4c8996fb92427ae41e4649b934ca495991b7852b855" ∧
    (∀ q : String, (∀ c ∈ q.data, c.isDigit = false) → hashPhone p = hashPhone q) ∧
    (∀ (s : Store) (now : Nat) (nuid ncid otp e : String), e ≠ "" →
      (∀ u ∈ s.users, u.emailHash ≠ hashEmail e) →
      signup s now nuid ncid otp (some e) (some p) =
        (.ok (nuid, otp),
         Store.mk (s.users ++ [User.mk nuid (hashEmail e)
             "e3b0c44298fc1c149afbf4c8996fb92427ae41e4649b934ca495991b7852b855" now])
           (s.codes ++ [LoginCode.mk ncid nuid otp (now + 5 * 60000) false now]))) := by
  have hfil : p.data.filter Char.isDigit = [] := by
    rw [List.filter_eq_nil_iff]
    intro a ha
    rw [hnd a ha]
    simp
  have hnorm : normalizePhone p = "" := by
    unfold normalizePhone
    rw [hfil]
  have hempty : hashString "" =
      "e3b0c44298fc1c149afbf4c8996fb92427ae41e4649b934ca495991b7852b855" := by
    decide
  have hhash : hashPhone p =
      "e3b0c44298fc1c149afbf4c8996fb92427ae41e4649b934ca495991b7852b855" := by
    unfold hashPhone
    rw [hnorm, hempty]
  refine ⟨present_some hp, hnorm, hhash, ?_, ?_⟩
  · intro q hq
    have hfq : q.data.filter Char.isDigit = [] := by
      rw [List.filter_eq_nil_iff]
      intro a ha
      rw [hq a ha]
      simp
    have hq' : normalizePhone q = "" := by
      unfold normalizePhone
      rw [hfq]
    unfold hashPhone
    rw [hnorm, hq']
  · intro s now nuid ncid otp e he hall
    cases hfu : findUserByEmailHash s (hashEmail e) with
    | none =>
      rw [signup_eq_of_present he hp, hfu, hhash]
      rfl
    | some v =>
      exfalso
      have hfu' : List.find? (fun u => u.emailHash == hashEmail e) s.users = some v := hfu
      have hv := List.find?_some hfu'
      exact hall v (List.mem_of_find?_eq_some hfu') (by simpa using hv)

/-- Witness for C10: "abc" passes validation, hashes to the digest of the
empty string and collides with another digitless phone input. -/
theorem C10_witness :
    hashPhone "abc" =
      "e3b0c44298fc1c149afbf4c8996fb92427ae41e4649b934ca495991b7852b855" ∧
    hashPhone "abc" = hashPhone "+-()" := by
  have h := C10_phone_without_digits "abc" (by decide) (by decide)
  exact ⟨h.2.2.1, h.2.2.2.1 "+-()" (by decide)⟩

end PerfumeAuth
